import Mathlib

/-
  Verification development for the kgdreaminvest trading engine.

  Shallow embedding of the parts of the code base that the checked
  properties speak about:
    - src/config.py               (configuration constants)
    - src/utils.py                (clamp01, market_is_open_et)
    - src/database/schema.py      (CHANNEL_WEIGHTS, edge_weight_top)
    - src/llm/budget.py           (LLMBudget.acquire)
    - src/workers/think_worker.py (critic_score, sanitize_decisions,
                                   rule_based_fallback, _llm_committee)
    - src/portfolio/trading.py    (execute_paper_trades)
    - src/workers/market_worker.py (snapshot trim in step_once)
    - src/workers/dream_worker.py (_assess_option_option_pair skip logic)

  Numeric values are modelled with exact rational arithmetic; Python
  float rounding is abstracted away.  Strings are modelled with Lean
  strings; Python truthiness of a string is the test against the empty
  string.  Timestamps handled only as opaque strings by the code stay
  strings; times the code compares numerically become rationals.
-/

set_option maxRecDepth 4000

namespace KGInvest

/-! ## Configuration (src/config.py defaults) -/

/-- Default investible universe from src/config.py. -/
def INVESTIBLES : List String :=
  ["XLE", "XLF", "XLV", "XME", "IYT", "AAPL", "MSFT", "JPM", "UNH", "CAT",
   "NVDA", "AMD", "AMZN", "GOOGL", "META", "ARCB", "TTMI", "TRMK", "KWR",
   "ICUI", "ACHR", "BBAI", "ASTS", "JOBY", "LUNR", "OKLO", "LAC", "INTC",
   "APLD", "F", "PSNY", "PSFE", "U", "LCID", "SMR", "WOLF", "BYND", "AIG"]

/-- Default EXPLANATION_MIN_LENGTH from src/config.py. -/
def EXPLANATION_MIN_LENGTH : Nat := 180

/-- Default MIN_CASH_BUFFER_PCT from src/config.py. -/
def MIN_CASH_BUFFER_PCT : ℚ := 12

/-! ## Utilities (src/utils.py) -/

/-- Translation of clamp01 from src/utils.py. -/
def clamp01 (x : ℚ) : ℚ := max 0 (min 1 x)

/-- Translation of market_is_open_et from src/utils.py.  The Python code
reads weekday(), hour and minute of an ET datetime; those three fields are
the arguments here (weekday: Monday = 0 .. Sunday = 6).  Seconds are not
consulted by the code. -/
def market_is_open_et (weekday hour minute : Nat) : Bool :=
  if 5 ≤ weekday then false
  else
    let h : ℚ := (hour : ℚ) + (minute : ℚ) / 60
    decide (19/2 ≤ h) && decide (h < 16)

/-! ## Knowledge-graph channel weights (src/database/schema.py) -/

/-- Association-list lookup used throughout to model Python dict reads. -/
def assocFind (m : List (String × ℚ)) (k : String) : Option ℚ :=
  match m with
  | [] => none
  | (a, b) :: r => if a = k then some b else assocFind r k

/-- Association-list write used to model Python dict assignment. -/
def assocSet (m : List (String × ℚ)) (k : String) (v : ℚ) : List (String × ℚ) :=
  match m with
  | [] => [(k, v)]
  | (a, b) :: r => if a = k then (k, v) :: r else (a, b) :: assocSet r k v

/-- Translation of CHANNEL_WEIGHTS from src/database/schema.py. -/
def CHANNEL_WEIGHTS : List (String × ℚ) :=
  [("correlates", 1), ("inverse_correlates", 1), ("drives", 9/10),
   ("results_from", 8/10), ("leads", 7/10), ("lags", 7/10), ("hedges", 8/10),
   ("policy_exposed", 6/10), ("supply_chain_linked", 6/10),
   ("liquidity_coupled", 7/10), ("sentiment_coupled", 7/10),
   ("narrative_supports", 5/10), ("narrative_contradicts", 7/10)]

/-- The base of a channel name: the part before the first colon, as in
ch.split(colon, 1)[0] in edge_weight_top. -/
def channel_base (ch : String) : String :=
  String.mk (ch.data.takeWhile (fun c => c ≠ ':'))

/-- Base weight of a channel: CHANNEL_WEIGHTS.get(base, 0.5). -/
def channel_weight (ch : String) : ℚ :=
  (assocFind CHANNEL_WEIGHTS (channel_base ch)).getD (1/2)

/-- The loop body of edge_weight_top: the accumulator carries the running
total and the running best (strength, channel) pair. -/
def ewt_step (acc : ℚ × ℚ × Option String) (p : String × ℚ) : ℚ × ℚ × Option String :=
  let w := channel_weight p.1
  let total := acc.1 + w * p.2
  if acc.2.1 < p.2 then (total, p.2, some p.1) else (total, acc.2.1, acc.2.2)

/-- Translation of edge_weight_top from src/database/schema.py.  The input
list is the channel dict in iteration (insertion) order.  The best pair
starts at (0.0, None) and is replaced on strictly greater strength. -/
def edge_weight_top (chs : List (String × ℚ)) : ℚ × Option String :=
  let r := chs.foldl ewt_step (0, 0, none)
  (r.1, r.2.2)

/-! ## LLM budget (src/llm/budget.py) -/

/-- State of an LLMBudget instance: the window start time, the call count
in the current window, and the configured per-minute budget. -/
structure LLMBudgetState where
  calls_per_min : Nat
  window_start : ℚ
  calls : Nat
deriving DecidableEq

/-- Translation of the LLMBudget constructor: calls_per_min is
max(1, int(n)); the window starts at creation time with zero calls. -/
def LLMBudget_init (n : Int) (t0 : ℚ) : LLMBudgetState :=
  ⟨(max 1 n).toNat, t0, 0⟩

/-- Translation of LLMBudget._reset_if_needed. -/
def reset_if_needed (st : LLMBudgetState) (now : ℚ) : LLMBudgetState :=
  if 60 ≤ now - st.window_start then { st with window_start := now, calls := 0 }
  else st

/-- Translation of LLMBudget.acquire.  Returns the boolean result and the
updated budget state. -/
def LLMBudget_acquire (st : LLMBudgetState) (now : ℚ) : Bool × LLMBudgetState :=
  let st := reset_if_needed st now
  if st.calls_per_min ≤ st.calls then (false, st)
  else (true, { st with calls := st.calls + 1 })

/-- A sequence of acquire calls at the given times, oldest first. -/
def acquire_trace (st : LLMBudgetState) : List ℚ → LLMBudgetState × List Bool
  | [] => (st, [])
  | t :: ts =>
    let step := LLMBudget_acquire st t
    let rest := acquire_trace step.2 ts
    (rest.1, step.1 :: rest.2)

/-! ## Think worker (src/workers/think_worker.py) -/

/-- A (sanitized) trading decision: the dict shape produced by
sanitize_decisions and consumed by critic_score and the executor. -/
structure TradeDecision where
  ticker : String
  action : String
  allocation_pct : ℚ
  note : String
deriving DecidableEq

/-- Whether the Python expression (w in s) holds, i.e. w occurs as a
substring of s: splitting on w yields more than one part. -/
def contains_sub (s w : String) : Bool :=
  (s.splitOn w).length ≠ 1

/-- The reasoning keyword list hard-coded in critic_score. -/
def critic_keywords : List String :=
  ["because", "however", "therefore", "driven", "while", "but", "risk"]

/-- Translation of critic_score from src/workers/think_worker.py. -/
def critic_score (explanation : String) (decisions : List TradeDecision)
    (conf : ℚ) : ℚ :=
  let score := 22/100 + 48/100 * clamp01 conf
  let score := if EXPLANATION_MIN_LENGTH ≤ explanation.length
               then score + 10/100 else score
  let score := if critic_keywords.any (fun w => contains_sub explanation.toLower w)
               then score + 10/100 else score
  let buys := (decisions.filter
      (fun d => d.action = "BUY" ∧ 0 < d.allocation_pct)).length
  let sells := (decisions.filter
      (fun d => d.action = "SELL" ∧ 0 < d.allocation_pct)).length
  let score := if 10 ≤ buys then score - 6/100 else score
  let score := if 10 ≤ sells then score - 4/100 else score
  clamp01 score

/-- Fields of one raw decision dict, after the primitive Python reads:
item.get returns the field when present.  A missing or non-convertible
allocation_pct is none (the code coerces it to 0.0). -/
structure RawFields where
  ticker : Option String
  action : Option String
  allocation_pct : Option ℚ
  note : Option String

/-- One element of the raw decisions value: a dict or something else. -/
inductive RawItem where
  | notDict : RawItem
  | dict : RawFields → RawItem

/-- The raw decisions value handed to sanitize_decisions: a list or some
non-list value. -/
inductive RawVal where
  | notList : RawVal
  | list : List RawItem → RawVal

/-- The per-item body of the sanitize_decisions loop: none when the item is
dropped, some sanitized decision when it is appended. -/
def sanitize_item : RawItem → Option TradeDecision
  | .notDict => none
  | .dict f =>
    let t := (f.ticker.getD ("")).toUpper.trim
    if t ∈ INVESTIBLES then
      let a0 := (f.action.getD ("HOLD")).toUpper.trim
      let a := if a0 = "BUY" ∨ a0 = "SELL" ∨ a0 = "HOLD" then a0 else "HOLD"
      let pct := max 0 (min 80 (f.allocation_pct.getD 0))
      let note := ((f.note.getD ("")).trim).take 260
      some ⟨t, a, pct, note⟩
    else none

/-- The synthetic entry appended for an investible missing from the output. -/
def default_hold (t : String) : TradeDecision :=
  ⟨t, "HOLD", 0, "default HOLD"⟩

/-- Translation of sanitize_decisions from src/workers/think_worker.py. -/
def sanitize_decisions : RawVal → List TradeDecision
  | .notList => []
  | .list items =>
    let out := items.filterMap sanitize_item
    let present := out.map TradeDecision.ticker
    out ++ (INVESTIBLES.filter (fun t => t ∉ present)).map default_hold

/-- Models the Python idiom float(d.get(key, dflt) or dflt): a missing or
non-convertible value and a falsy (zero) value both yield the default. -/
def orDefault (o : Option ℚ) (dflt : ℚ) : ℚ :=
  match o with
  | none => dflt
  | some v => if v = 0 then dflt else v

/-- Indicator row for one ticker as read by rule_based_fallback. -/
structure IndicatorRow where
  mom20 : Option ℚ
  volatility : Option ℚ
  rsi : Option ℚ

/-- Indicator lookup: indicators.get(t) or empty dict. -/
def indicatorFind (m : List (String × IndicatorRow)) (k : String) : IndicatorRow :=
  match m with
  | [] => ⟨none, none, none⟩
  | (a, b) :: r => if a = k then b else indicatorFind r k

/-- The per-ticker score of rule_based_fallback:
mom20 minus 2 times volatility, minus 0.01 when RSI is above 72. -/
def fallback_score (ind : IndicatorRow) : ℚ :=
  let mom20 := orDefault ind.mom20 0
  let vol := orDefault ind.volatility 0
  let rsi := orDefault ind.rsi 50
  let s := mom20 - 2 * vol
  if 72 < rsi then s - 1/100 else s

/-- Descending lexicographic order on (score, ticker) pairs, matching the
Python list.sort(reverse=True) on 2-tuples. -/
def rank_ge (a b : ℚ × String) : Prop :=
  b.1 < a.1 ∨ (a.1 = b.1 ∧ ¬ a.2 < b.2)

instance : DecidableRel rank_ge := fun a b => by
  unfold rank_ge; infer_instance

/-- The last n elements of a list, as in Python negative slicing. -/
def takeLastN (n : Nat) (l : List String) : List String :=
  l.drop (l.length - n)

/-- Signals row as read by rule_based_fallback (only risk_off is used). -/
structure SignalRow where
  risk_off : Option ℚ

/-- A JSON-like value, used for the agents payload that the committee
passes through untouched. -/
inductive Jval where
  | jstr : String → Jval
  | jnum : ℚ → Jval
  | jarr : List Jval → Jval
  | jobj : List (String × Jval) → Jval

/-- The 4-tuple returned by ThinkWorker._llm_committee and by
rule_based_fallback: agents, decisions, explanation, confidence. -/
structure CommitteeResult where
  agents : Jval
  decisions : List TradeDecision
  explanation : String
  confidence : ℚ

/-- Translation of rule_based_fallback from src/workers/think_worker.py. -/
def rule_based_fallback (prices : List (String × ℚ))
    (indicators : List (String × IndicatorRow)) (signals : SignalRow) :
    CommitteeResult :=
  let _ := prices
  let risk_off := orDefault signals.risk_off (1/2)
  let ranked := List.insertionSort rank_ge
    (INVESTIBLES.map (fun t => (fallback_score (indicatorFind indicators t), t)))
  let rankedTickers := ranked.map Prod.snd
  let top := rankedTickers.take 5
  let bottom := takeLastN 4 rankedTickers
  let decisions := INVESTIBLES.map (fun t =>
    if 62/100 < risk_off then
      if t ∈ bottom then ⟨t, "SELL", 15, "risk-off: trim weak/volatile"⟩
      else if t = "XLV" then ⟨t, "BUY", 6, "risk-off: tilt defensive"⟩
      else ⟨t, "HOLD", 0, "risk-off: hold"⟩
    else
      if t ∈ top then ⟨t, "BUY", 7, "momentum leader: add small"⟩
      else if t ∈ bottom then ⟨t, "SELL", 12, "laggard: trim"⟩
      else ⟨t, "HOLD", 0, "neutral"⟩)
  let regime := if 62/100 < risk_off then "risk-off" else "risk-on"
  let agents := Jval.jobj
    [("macro", Jval.jobj [("regime", Jval.jstr regime),
                          ("risk_off", Jval.jnum risk_off)]),
     ("technical", Jval.jobj [("top", Jval.jarr (top.map Jval.jstr)),
                              ("bottom", Jval.jarr (bottom.map Jval.jstr))]),
     ("risk", Jval.jobj [("cash_buffer_pct", Jval.jnum MIN_CASH_BUFFER_PCT),
                         ("guardrails", Jval.jstr ("fallback"))])]
  let explanation :=
    ("Fallback plan (no LLM): regime=") ++ regime ++ (". ") ++
    ("Adds focus on leaders (") ++ String.intercalate (", ") (top.take 3) ++
    ("); trims laggards (") ++ String.intercalate (", ") (bottom.take 2) ++
    ("). Kept small sizes to limit churn and preserve cash buffer.")
  ⟨agents, decisions, explanation, 42/100⟩

/-- The parsed LLM committee reply, with the fields _llm_committee reads.
A none confidence stands for a missing or non-convertible value. -/
structure ParsedLLM where
  agents : Option Jval
  decisions : RawVal
  explanation : String
  confidence : Option ℚ

/-- Translation of ThinkWorker._llm_committee from
src/workers/think_worker.py.  prompt_loaded models whether get_prompt
returned a config; parsed models the first component of llm_chat_json
(none for a falsy parse result); gen_explanation models the collaborator
ThinkWorker._generate_explanation_from_agents, called only when the LLM
explanation is empty. -/
def llm_committee (prompt_loaded : Bool) (parsed : Option ParsedLLM)
    (gen_explanation : Jval → List TradeDecision → String)
    (prices : List (String × ℚ)) (indicators : List (String × IndicatorRow))
    (signals : SignalRow) : CommitteeResult :=
  if prompt_loaded = false then rule_based_fallback prices indicators signals
  else
    match parsed with
    | none => ⟨Jval.jobj [], [], "LLM parsing failed - check logs", 0⟩
    | some pr =>
      let agents := match pr.agents with
        | some (Jval.jobj o) => Jval.jobj o
        | _ => Jval.jobj []
      let decisions := sanitize_decisions pr.decisions
      let explanation0 := pr.explanation.trim
      let explanation := if explanation0 = "" then gen_explanation agents decisions
                         else explanation0
      let conf := clamp01 (orDefault pr.confidence (1/2))
      if decisions = [] then
        ⟨Jval.jobj [], [], "Decisions parsing failed - check logs", 0⟩
      else ⟨agents, decisions, explanation, conf⟩

/-! ## Paper-trading executor (src/portfolio/trading.py) -/

/-- The trading limits read from Config by execute_paper_trades. -/
structure TradingConfig where
  MIN_TRADE_NOTIONAL : ℚ
  MAX_BUY_EQUITY_PCT_PER_CYCLE : ℚ
  MAX_SELL_HOLDING_PCT_PER_CYCLE : ℚ
  MAX_SYMBOL_WEIGHT_PCT : ℚ
  MIN_CASH_BUFFER_PCT : ℚ
deriving DecidableEq

/-- The src/config.py defaults for the trading limits. -/
def defaultTradingConfig : TradingConfig :=
  ⟨25, 18, 35, 14, 12⟩

/-- One row of the positions table. -/
structure PositionRow where
  symbol : String
  qty : ℚ
  avg_cost : ℚ
  last_price : ℚ
  updated_at : String
  executed_at : Option String
deriving DecidableEq

/-- One row appended to the trades table. -/
structure TradeRow where
  ts : String
  symbol : String
  side : String
  qty : ℚ
  price : ℚ
  notional : ℚ
  reason : String
  insight_id : Int
deriving DecidableEq

/-- One entry of the executed list in the result dict. -/
structure ExecRecord where
  ticker : String
  side : String
  shares : ℚ
  price : ℚ
  notional : ℚ
deriving DecidableEq

/-- The price used to mark a position row: the prices-dict current value
when the symbol is present, else the stored last_price (portfolio_state in
src/database/operations.py). -/
def mark_price (prices : List (String × ℚ)) (r : PositionRow) : ℚ :=
  match assocFind prices r.symbol with
  | some c => c
  | none => r.last_price

/-- Equity as computed by portfolio_state: cash plus the marked value of
every position row. -/
def portfolio_equity (cash : ℚ) (table : List PositionRow)
    (prices : List (String × ℚ)) : ℚ :=
  cash + (table.map (fun r => r.qty * mark_price prices r)).sum

/-- The mutable state threaded through the two passes of
execute_paper_trades: the local cash/budget/dict variables together with
the database rows the passes touch and the result lists. -/
structure ExecState where
  cash : ℚ
  buy_budget : ℚ
  qty_by_sym : List (String × ℚ)
  mv_by_sym : List (String × ℚ)
  positions : List PositionRow
  trades : List TradeRow
  executed : List ExecRecord
  skipped : List String
  stopped : Bool
deriving DecidableEq

/-- DELETE FROM positions WHERE symbol=sym. -/
def deletePosition (tbl : List PositionRow) (sym : String) : List PositionRow :=
  tbl.filter (fun r => r.symbol ≠ sym)

/-- UPDATE positions SET qty, last_price, updated_at WHERE symbol=sym. -/
def updatePositionSell (tbl : List PositionRow) (sym : String)
    (newQty p : ℚ) (now : String) : List PositionRow :=
  tbl.map (fun r => if r.symbol = sym
    then { r with qty := newQty, last_price := p, updated_at := now } else r)

/-- SELECT * FROM positions WHERE symbol=sym. -/
def findPosition (tbl : List PositionRow) (sym : String) : Option PositionRow :=
  match tbl with
  | [] => none
  | r :: rest => if r.symbol = sym then some r else findPosition rest sym

/-- INSERT OR REPLACE INTO positions (symbol is the primary key). -/
def replacePosition (tbl : List PositionRow) (row : PositionRow) : List PositionRow :=
  if (findPosition tbl row.symbol).isSome
  then tbl.map (fun r => if r.symbol = row.symbol then row else r)
  else tbl ++ [row]

/-- The body of the SELL pass loop of execute_paper_trades for one
decision.  Decisions that fail the silent checks leave the state
untouched; a too-small notional appends one skip reason; an executed SELL
credits cash, updates the symbol dicts, rewrites the position row (or
deletes it below the dust threshold) and appends a trade and an executed
record. -/
def sell_step (cfg : TradingConfig) (prices : List (String × ℚ))
    (now reason : String) (insight_id : Int)
    (st : ExecState) (d : TradeDecision) : ExecState :=
  if d.action ≠ "SELL" then st
  else if (assocFind prices d.ticker).isNone then st
  else
    let hv := (assocFind st.qty_by_sym d.ticker).getD 0
    if hv ≤ 0 then st
    else
      let pct := min d.allocation_pct cfg.MAX_SELL_HOLDING_PCT_PER_CYCLE
      if pct ≤ 0 then st
      else
        let sell_sh := hv * (pct / 100)
        let p := (assocFind prices d.ticker).getD 0
        let notional := sell_sh * p
        if notional < cfg.MIN_TRADE_NOTIONAL then
          { st with skipped := st.skipped ++ [("SELL ") ++ d.ticker ++ (" notional too small")] }
        else
          let new_have := hv - sell_sh
          { st with
            cash := st.cash + notional
            qty_by_sym := assocSet st.qty_by_sym d.ticker new_have
            mv_by_sym := assocSet st.mv_by_sym d.ticker (new_have * p)
            positions := if new_have ≤ 1/100000000
              then deletePosition st.positions d.ticker
              else updatePositionSell st.positions d.ticker new_have p now
            trades := st.trades ++
              [⟨now, d.ticker, "SELL", sell_sh, p, notional, reason.take 400, insight_id⟩]
            executed := st.executed ++ [⟨d.ticker, "SELL", sell_sh, p, notional⟩] }

/-- The body of the BUY pass loop of execute_paper_trades for one
decision.  equity and cash_buffer are fixed at cycle start.  The stopped
flag models the two break statements (cash-buffer stop and exhausted buy
budget). -/
def buy_step (cfg : TradingConfig) (prices : List (String × ℚ))
    (equity cash_buffer : ℚ) (now reason : String) (insight_id : Int)
    (st : ExecState) (d : TradeDecision) : ExecState :=
  if st.stopped then st
  else if d.action ≠ "BUY" then st
  else if (assocFind prices d.ticker).isNone then st
  else if d.allocation_pct ≤ 0 then st
  else
    let p := (assocFind prices d.ticker).getD 0
    if p ≤ 0 then st
    else
      let spendable := max 0 (st.cash - cash_buffer)
      if spendable < cfg.MIN_TRADE_NOTIONAL then
        { st with skipped := st.skipped ++ ["BUY: cash buffer prevents spending"],
                  stopped := true }
      else
        let requested := equity * (d.allocation_pct / 100)
        let notional0 := min (min requested st.buy_budget) spendable
        if notional0 < cfg.MIN_TRADE_NOTIONAL then
          { st with skipped := st.skipped ++ [("BUY ") ++ d.ticker ++ (" notional too small")] }
        else
          let current_mv := (assocFind st.mv_by_sym d.ticker).getD 0
          let cap := equity * (cfg.MAX_SYMBOL_WEIGHT_PCT / 100)
          if cap ≤ current_mv then
            { st with skipped := st.skipped ++ [("BUY ") ++ d.ticker ++ (" cap reached")] }
          else
            let notional := min notional0 (max 0 (cap - current_mv))
            if notional < cfg.MIN_TRADE_NOTIONAL then
              { st with skipped := st.skipped ++ [("BUY ") ++ d.ticker ++ (" cap residual too small")] }
            else
              let shares := notional / p
              let hv := (assocFind st.qty_by_sym d.ticker).getD 0
              let row := findPosition st.positions d.ticker
              let avg := match row with
                | some r => r.avg_cost
                | none => p
              let new_qty := hv + shares
              let new_avg := (avg * hv + p * shares) / max (1/1000000000) new_qty
              let exec_at := match row with
                | some r => match r.executed_at with
                  | some s => if s = "" then now else s
                  | none => now
                | none => now
              { st with
                cash := st.cash - notional
                buy_budget := st.buy_budget - notional
                qty_by_sym := assocSet st.qty_by_sym d.ticker new_qty
                mv_by_sym := assocSet st.mv_by_sym d.ticker (new_qty * p)
                positions := replacePosition st.positions
                  ⟨d.ticker, new_qty, new_avg, p, now, some exec_at⟩
                trades := st.trades ++
                  [⟨now, d.ticker, "BUY", shares, p, notional, reason.take 400, insight_id⟩]
                executed := st.executed ++ [⟨d.ticker, "BUY", shares, p, notional⟩]
                stopped := decide (st.buy_budget - notional < cfg.MIN_TRADE_NOTIONAL) }

/-- The buy budget computed at cycle start:
equity times MAX_BUY_EQUITY_PCT_PER_CYCLE over 100. -/
def cycle_buy_budget (cfg : TradingConfig) (cash0 : ℚ)
    (table : List PositionRow) (prices : List (String × ℚ)) : ℚ :=
  portfolio_equity cash0 table prices * (cfg.MAX_BUY_EQUITY_PCT_PER_CYCLE / 100)

/-- The cash buffer computed at cycle start:
equity times MIN_CASH_BUFFER_PCT over 100. -/
def cycle_cash_buffer (cfg : TradingConfig) (cash0 : ℚ)
    (table : List PositionRow) (prices : List (String × ℚ)) : ℚ :=
  portfolio_equity cash0 table prices * (cfg.MIN_CASH_BUFFER_PCT / 100)

/-- Translation of execute_paper_trades from src/portfolio/trading.py:
equity, buy budget and cash buffer are computed from the initial cash and
position table, then the SELL pass runs over all decisions followed by
the BUY pass.  The final state carries the result lists, the final cash
(written back by set_cash) and the mutated tables. -/
def execute_paper_trades (cfg : TradingConfig) (cash0 : ℚ)
    (table : List PositionRow) (prices : List (String × ℚ))
    (decisions : List TradeDecision) (now reason : String)
    (insight_id : Int) : ExecState :=
  let equity := portfolio_equity cash0 table prices
  let st0 : ExecState :=
    ⟨cash0, cycle_buy_budget cfg cash0 table prices,
     table.map (fun r => (r.symbol, r.qty)),
     table.map (fun r => (r.symbol, r.qty * mark_price prices r)),
     table, [], [], [], false⟩
  let st1 := decisions.foldl (sell_step cfg prices now reason insight_id) st0
  decisions.foldl
    (buy_step cfg prices equity (cycle_cash_buffer cfg cash0 table prices)
      now reason insight_id) st1

/-! ## Market worker snapshot trim (src/workers/market_worker.py) -/

/-- SELECT MAX(snapshot_id) FROM snapshots, with 0 for an empty table
(the trim runs right after an insert, so the table is never empty). -/
def max_snapshot_id (ids : List Nat) : Int :=
  ids.foldr (fun i m => max (Int.ofNat i) m) 0

/-- The trim statement at the end of MarketWorker.step_once:
DELETE FROM snapshots WHERE snapshot_id < MAX(snapshot_id) - 1500. -/
def trim_snapshots (ids : List Nat) : List Nat :=
  ids.filter (fun i => ¬ ((i : Int) < max_snapshot_id ids - 1500))

/-- The snapshot rows retained after one Market worker step: the fresh row
(with an id larger than every existing one, by autoincrement) is inserted
and then the trim runs. -/
def market_step_snapshots (ids : List Nat) (newId : Nat) : List Nat :=
  trim_snapshots (ids ++ [newId])

/-! ## Dream worker option-option skip (src/workers/dream_worker.py) -/

/-- The part of an edges row that _assess_option_option_pair reads when
deciding whether to skip the chosen pair. -/
structure EdgeRow where
  last_assessed : Option String
deriving DecidableEq

/-- The skip decision of DreamWorker._assess_option_option_pair (lines
345-359): when an edge for the pair exists and its last_assessed column is
a truthy (non-empty, non-NULL) string, the method returns without any
write.  The current time is not consulted. -/
def option_pair_skip (existing : Option EdgeRow) : Bool :=
  match existing with
  | none => false
  | some e =>
    match e.last_assessed with
    | none => false
    | some s => if s = "" then false else true

/-! ## Helper lemmas -/

theorem clamp01_mono {x y : ℚ} (h : x ≤ y) : clamp01 x ≤ clamp01 y :=
  max_le_max le_rfl (min_le_min le_rfl h)

theorem clamp01_nonneg (x : ℚ) : 0 ≤ clamp01 x := le_max_left _ _

theorem clamp01_le_one (x : ℚ) : clamp01 x ≤ 1 :=
  max_le (by norm_num) (min_le_left _ _)

theorem reset_cpm (st : LLMBudgetState) (now : ℚ) :
    (reset_if_needed st now).calls_per_min = st.calls_per_min := by
  unfold reset_if_needed
  split <;> rfl

/-! ## Claim theorems -/

/-- Claim C9 (confirmed): market_is_open_et returns true exactly when the
ET weekday is Monday through Friday (weekday below 5) and the fractional
hour lies in the half-open interval from 9.5 inclusive to 16 exclusive; in
particular it is true at exactly 9:30, false at exactly 16:00, and false
on every weekend timestamp; holidays are ignored by construction. -/
theorem C9_market_hours :
    (∀ w h m : Nat, market_is_open_et w h m = true ↔
        (w < 5 ∧ 19/2 ≤ (h : ℚ) + (m : ℚ) / 60 ∧ (h : ℚ) + (m : ℚ) / 60 < 16))
    ∧ (∀ w : Nat, w < 5 → market_is_open_et w 9 30 = true)
    ∧ (∀ w : Nat, market_is_open_et w 16 0 = false)
    ∧ (∀ w h m : Nat, 5 ≤ w → market_is_open_et w h m = false) := by
  refine ⟨?_, ?_, ?_, ?_⟩
  · intro w h m
    unfold market_is_open_et
    by_cases hw : 5 ≤ w
    · rw [if_pos hw]
      simp only [Bool.false_eq_true, false_iff]
      rintro ⟨h5, _⟩
      omega
    · rw [if_neg hw]
      simp only [Bool.and_eq_true, decide_eq_true_eq]
      constructor
      · rintro ⟨h1, h2⟩
        exact ⟨by omega, h1, h2⟩
      · rintro ⟨_, h1, h2⟩
        exact ⟨h1, h2⟩
  · intro w hw
    unfold market_is_open_et
    rw [if_neg (by omega)]
    norm_num
  · intro w
    unfold market_is_open_et
    by_cases hw : 5 ≤ w
    · rw [if_pos hw]
    · rw [if_neg hw]
      norm_num
  · intro w h m hw
    unfold market_is_open_et
    rw [if_pos hw]

/-- Witness for C9 at concrete inputs. -/
theorem C9_market_hours_witness :
    (2 < 5 ∧ market_is_open_et 2 9 30 = true)
    ∧ (5 ≤ 6 ∧ market_is_open_et 6 12 0 = false) :=
  ⟨⟨by norm_num, C9_market_hours.2.1 2 (by norm_num)⟩,
   ⟨by norm_num, C9_market_hours.2.2.2 6 12 0 (by norm_num)⟩⟩

/-- Claim C7 (code_bug): the Dream worker option-option pair assessment is
claimed to skip only pairs assessed within the last hour.  The code at
src/workers/dream_worker.py lines 345-359 returns for ANY truthy
last_assessed value: the skip decision never consults the current time, so
a pair whose most recent assessment is more than one hour old is also
skipped, contradicting the in-code comment and the spec. -/
theorem C7_option_pair_skip :
    ∀ (e : EdgeRow) (s : String), e.last_assessed = some s → s ≠ "" →
      option_pair_skip (some e) = true := by
  intro e s hs hne
  simp only [option_pair_skip, hs]
  simp [hne]

/-- Witness for C7: an edge whose last assessment timestamp is far in the
past (hours before any plausible step time) is still skipped. -/
theorem C7_option_pair_skip_witness :
    option_pair_skip (some ⟨some ("2025-01-01T00:00:00+00:00")⟩) = true :=
  C7_option_pair_skip ⟨some ("2025-01-01T00:00:00+00:00")⟩
    ("2025-01-01T00:00:00+00:00") rfl (by decide)

/-- Claim C1 (code_bug): the claim (and the spec) say a committee LLM call
that yields no parsed object falls back to rule_based_fallback with
confidence 0.42.  In the code the fallback on this path is commented out
(TEMPORARILY DISABLE FALLBACK in think_worker.py): _llm_committee returns
an empty decision list with confidence 0.0 instead, while the rule-based
fallback would return confidence 0.42. -/
theorem C1_llm_failure_no_fallback :
    ∀ (gen : Jval → List TradeDecision → String)
      (prices : List (String × ℚ)) (indicators : List (String × IndicatorRow))
      (signals : SignalRow),
      (llm_committee true none gen prices indicators signals).confidence = 0
      ∧ (llm_committee true none gen prices indicators signals).decisions = []
      ∧ (rule_based_fallback prices indicators signals).confidence = 42/100
      ∧ (0 : ℚ) ≠ 42/100 :=
  fun _ _ _ _ => ⟨rfl, rfl, rfl, by norm_num⟩

/-- Counterexample for C4: with calls_per_min = 1, acquire calls at times
59 and 61 (seconds from budget creation) both return true although they
lie 2 seconds apart, i.e. well inside one rolling 60-second window; the
code implements a fixed window that resets at 60 elapsed seconds, not a
rolling one. -/
theorem C4_rolling_window_cex :
    (acquire_trace (LLMBudget_init 1 0) [59, 61]).2 = [true, true]
    ∧ ((61 : ℚ) - 59 < 60) := by
  constructor
  · norm_num [acquire_trace, LLMBudget_acquire, LLMBudget_init, reset_if_needed]
  · norm_num

theorem acquire_trace_no_reset (t0 : ℚ) :
    ∀ (ts : List ℚ) (st : LLMBudgetState),
      st.window_start = t0 → (∀ t ∈ ts, t - t0 < 60) →
      st.calls ≤ st.calls_per_min →
      (acquire_trace st ts).1.calls
          = st.calls + (acquire_trace st ts).2.count true
      ∧ (acquire_trace st ts).1.calls ≤ st.calls_per_min := by
  intro ts
  induction ts with
  | nil =>
    intro st h1 h2 h3
    simp [acquire_trace]
    exact h3
  | cons t ts ih =>
    intro st h1 h2 h3
    have hnr : reset_if_needed st t = st := by
      unfold reset_if_needed
      rw [if_neg]
      rw [h1]
      have := h2 t (by simp)
      linarith
    simp only [acquire_trace, LLMBudget_acquire, hnr]
    by_cases hfull : st.calls_per_min ≤ st.calls
    · rw [if_pos hfull]
      have hrec := ih st h1 (fun u hu => h2 u (by simp [hu])) h3
      simpa [List.count_cons] using hrec
    · rw [if_neg hfull]
      have hrec := ih { st with calls := st.calls + 1 } h1
        (fun u hu => h2 u (by simp [hu])) (by simpa using hfull)
      simp only [List.count_cons]
      simp only at hrec
      constructor
      · rw [hrec.1]
        simp
        omega
      · exact hrec.2

/-- Claim C4 (corrected): LLMBudget.acquire does not enforce a rolling
60-second window (see the counterexample); instead it implements a fixed
window that resets once 60 seconds have elapsed since window_start.  The
amended statement: acquire returns true iff the post-reset call count is
below calls_per_min; a successful acquire records the call by
incrementing the count; the recorded count never exceeds calls_per_min;
and any call sequence confined to less than 60 seconds after the window
start gets at most calls_per_min successful returns. -/
theorem C4_budget_window :
    (∀ (st : LLMBudgetState) (now : ℚ),
        (LLMBudget_acquire st now).1 = true ↔
          (reset_if_needed st now).calls < st.calls_per_min)
    ∧ (∀ (st : LLMBudgetState) (now : ℚ),
        (LLMBudget_acquire st now).1 = true →
          (LLMBudget_acquire st now).2.calls = (reset_if_needed st now).calls + 1)
    ∧ (∀ (st : LLMBudgetState) (now : ℚ),
        st.calls ≤ st.calls_per_min →
          (LLMBudget_acquire st now).2.calls ≤ st.calls_per_min)
    ∧ (∀ (cpm : Nat) (t0 : ℚ) (ts : List ℚ),
        (∀ t ∈ ts, t - t0 < 60) →
          ((acquire_trace ⟨cpm, t0, 0⟩ ts).2.count true) ≤ cpm) := by
  refine ⟨?_, ?_, ?_, ?_⟩
  · intro st now
    have hc := reset_cpm st now
    simp only [LLMBudget_acquire]
    split
    · next h =>
      simp only [Bool.false_eq_true, false_iff]
      omega
    · next h =>
      simp only [true_iff]
      omega
  · intro st now
    simp only [LLMBudget_acquire]
    split
    · next h => simp
    · next h => intro _; rfl
  · intro st now h
    have hc := reset_cpm st now
    have hcalls : (reset_if_needed st now).calls ≤ st.calls := by
      unfold reset_if_needed
      split
      · simp
      · exact le_rfl
    simp only [LLMBudget_acquire]
    split
    · next hf => dsimp only; omega
    · next hf => dsimp only; omega
  · intro cpm t0 ts hts
    have h := acquire_trace_no_reset t0 ts ⟨cpm, t0, 0⟩ rfl hts (by simp)
    dsimp only at h
    omega

/-- Witness for C4 at concrete inputs. -/
theorem C4_budget_window_witness :
    ((LLMBudget_acquire ⟨8, 0, 0⟩ 10).1 = true
      ∧ (LLMBudget_acquire ⟨8, 0, 0⟩ 10).2.calls = (reset_if_needed ⟨8, 0, 0⟩ 10).calls + 1)
    ∧ ((0 : Nat) ≤ 8 ∧ (LLMBudget_acquire ⟨8, 0, 0⟩ 10).2.calls ≤ 8)
    ∧ ((∀ t ∈ ([10, 20] : List ℚ), t - 0 < 60)
      ∧ (acquire_trace ⟨1, 0, 0⟩ [10, 20]).2.count true ≤ 1) := by
  have hacq : (LLMBudget_acquire ⟨8, 0, 0⟩ 10).1 = true := by
    norm_num [LLMBudget_acquire, reset_if_needed]
  refine ⟨⟨hacq, C4_budget_window.2.1 ⟨8, 0, 0⟩ 10 hacq⟩,
          ⟨by norm_num, C4_budget_window.2.2.1 ⟨8, 0, 0⟩ 10 (by norm_num)⟩,
          ⟨by intro t ht; simp at ht; rcases ht with h | h <;> norm_num [h],
           C4_budget_window.2.2.2 1 0 [10, 20]
             (by intro t ht; simp at ht; rcases ht with h | h <;> norm_num [h])⟩⟩

/-- Counterexample for C6: on the non-empty channel map with the single
channel correlates at strength 0, edge_weight_top returns top_channel
None, not a channel of maximal strength. -/
theorem C6_top_channel_cex :
    (edge_weight_top [("correlates", (0 : ℚ))]).2 = none
    ∧ ([("correlates", (0 : ℚ))] : List (String × ℚ)) ≠ [] := by
  constructor
  · norm_num [edge_weight_top, ewt_step]
  · simp

theorem ewt_step_fst (acc : ℚ × ℚ × Option String) (p : String × ℚ) :
    (ewt_step acc p).1 = acc.1 + channel_weight p.1 * p.2 := by
  unfold ewt_step
  split <;> rfl

theorem ewt_step_snd (acc : ℚ × ℚ × Option String) (p : String × ℚ) :
    (acc.2.1 < p.2 ∧ (ewt_step acc p).2 = (p.2, some p.1))
    ∨ (¬ acc.2.1 < p.2 ∧ (ewt_step acc p).2 = acc.2) := by
  unfold ewt_step
  split
  · next h => exact Or.inl ⟨h, rfl⟩
  · next h => exact Or.inr ⟨h, by simp⟩

theorem ewt_fold_total :
    ∀ (chs : List (String × ℚ)) (acc : ℚ × ℚ × Option String),
      (chs.foldl ewt_step acc).1
        = acc.1 + (chs.map (fun p => channel_weight p.1 * p.2)).sum := by
  intro chs
  induction chs with
  | nil => intro acc; simp
  | cons p rest ih =>
    intro acc
    simp only [List.foldl_cons, List.map_cons, List.sum_cons]
    rw [ih, ewt_step_fst]
    ring

theorem ewt_fold_best :
    ∀ (chs : List (String × ℚ)) (acc : ℚ × ℚ × Option String),
      (∀ p ∈ chs, p.2 ≤ (chs.foldl ewt_step acc).2.1)
      ∧ acc.2.1 ≤ (chs.foldl ewt_step acc).2.1
      ∧ (((chs.foldl ewt_step acc).2.2 = acc.2.2
            ∧ (chs.foldl ewt_step acc).2.1 = acc.2.1)
         ∨ (∃ p ∈ chs, (chs.foldl ewt_step acc).2.2 = some p.1
              ∧ (chs.foldl ewt_step acc).2.1 = p.2 ∧ acc.2.1 < p.2)) := by
  intro chs
  induction chs with
  | nil => intro acc; refine ⟨by simp, le_rfl, Or.inl ⟨rfl, rfl⟩⟩
  | cons p rest ih =>
    intro acc
    simp only [List.foldl_cons]
    rcases ewt_step_snd acc p with ⟨hlt, heq⟩ | ⟨hnlt, heq⟩
    · have hrec := ih (ewt_step acc p)
      rw [heq] at hrec
      obtain ⟨hall, hle, hdisj⟩ := hrec
      refine ⟨?_, ?_, ?_⟩
      · intro q hq
        rcases List.mem_cons.mp hq with rfl | hq
        · exact hle
        · exact hall q hq
      · calc acc.2.1 ≤ p.2 := le_of_lt hlt
          _ ≤ _ := hle
      · rcases hdisj with ⟨h1, h2⟩ | ⟨q, hq, h1, h2, h3⟩
        · exact Or.inr ⟨p, by simp, h1, h2, hlt⟩
        · exact Or.inr ⟨q, List.mem_cons_of_mem p hq, h1, h2, by
            calc acc.2.1 ≤ p.2 := le_of_lt hlt
              _ < q.2 := h3⟩
    · have hrec := ih (ewt_step acc p)
      rw [heq] at hrec
      obtain ⟨hall, hle, hdisj⟩ := hrec
      refine ⟨?_, hle, ?_⟩
      · intro q hq
        rcases List.mem_cons.mp hq with rfl | hq
        · exact le_trans (le_of_not_lt hnlt) hle
        · exact hall q hq
      · rcases hdisj with ⟨h1, h2⟩ | ⟨q, hq, h1, h2, h3⟩
        · exact Or.inl ⟨h1, h2⟩
        · exact Or.inr ⟨q, List.mem_cons_of_mem p hq, h1, h2, h3⟩

/-- Claim C6 (corrected): edge_weight_top returns the weighted sum over
channels as claimed, and None for the empty map; but a non-empty map all
of whose strengths are at most 0 also yields top_channel None (see the
counterexample), because the running best starts at strength 0 and is
only replaced on a strictly greater strength.  Whenever some strength is
positive, top_channel is a channel of maximal strength. -/
theorem C6_edge_weight_top :
    ∀ chs : List (String × ℚ),
      (edge_weight_top chs).1 = (chs.map (fun p => channel_weight p.1 * p.2)).sum
      ∧ (chs = [] → (edge_weight_top chs).2 = none)
      ∧ ((∀ p ∈ chs, p.2 ≤ 0) → (edge_weight_top chs).2 = none)
      ∧ (∀ p ∈ chs, 0 < p.2 →
          ∃ q ∈ chs, (edge_weight_top chs).2 = some q.1 ∧ ∀ r ∈ chs, r.2 ≤ q.2) := by
  intro chs
  obtain ⟨hall, hge0, hdisj⟩ := ewt_fold_best chs (0, 0, none)
  refine ⟨?_, ?_, ?_, ?_⟩
  · have := ewt_fold_total chs (0, 0, none)
    simpa [edge_weight_top] using this
  · intro h
    subst h
    rfl
  · intro hnp
    rcases hdisj with ⟨h1, _⟩ | ⟨q, hq, h1, h2, h3⟩
    · exact h1
    · exact absurd (hnp q hq) (not_le.mpr h3)
  · intro p hp hpos
    rcases hdisj with ⟨_, h2⟩ | ⟨q, hq, h1, h2, _⟩
    · have := hall p hp
      rw [h2] at this
      exact absurd hpos (not_lt.mpr this)
    · refine ⟨q, hq, h1, fun r hr => ?_⟩
      have := hall r hr
      rw [h2] at this
      exact this

/-- Witness for C6 at concrete inputs: a two-channel map with positive
strengths, and an all-nonpositive map. -/
theorem C6_edge_weight_top_witness :
    ((edge_weight_top [("correlates", (3/4 : ℚ)), ("drives:A->B", (1/2 : ℚ))]).1
        = ([("correlates", (3/4 : ℚ)), ("drives:A->B", (1/2 : ℚ))].map
            (fun p => channel_weight p.1 * p.2)).sum)
    ∧ ((∀ p ∈ [(("x" : String), (-1 : ℚ))], p.2 ≤ 0)
        ∧ (edge_weight_top [(("x" : String), (-1 : ℚ))]).2 = none)
    ∧ (∃ q ∈ [("correlates", (3/4 : ℚ)), ("drives:A->B", (1/2 : ℚ))],
        (edge_weight_top [("correlates", (3/4 : ℚ)), ("drives:A->B", (1/2 : ℚ))]).2
            = some q.1
        ∧ ∀ r ∈ [("correlates", (3/4 : ℚ)), ("drives:A->B", (1/2 : ℚ))], r.2 ≤ q.2) := by
  have hneg : ∀ p ∈ [(("x" : String), (-1 : ℚ))], p.2 ≤ 0 := by
    intro p hp
    simp only [List.mem_singleton] at hp
    subst hp
    norm_num
  exact ⟨(C6_edge_weight_top _).1,
         ⟨hneg, (C6_edge_weight_top _).2.2.1 hneg⟩,
         (C6_edge_weight_top _).2.2.2 ("correlates", 3/4) (by simp) (by norm_num)⟩

theorem critic_score_eq (e : String) (ds : List TradeDecision) (c : ℚ) :
    critic_score e ds c = clamp01 (22/100 + 48/100 * clamp01 c
      + (if EXPLANATION_MIN_LENGTH ≤ e.length then 10/100 else 0)
      + (if critic_keywords.any (fun w => contains_sub e.toLower w) then 10/100 else 0)
      - (if 10 ≤ (ds.filter (fun d => d.action = "BUY" ∧ 0 < d.allocation_pct)).length
         then 6/100 else 0)
      - (if 10 ≤ (ds.filter (fun d => d.action = "SELL" ∧ 0 < d.allocation_pct)).length
         then 4/100 else 0)) := by
  simp only [critic_score]
  split_ifs <;> ring_nf

/-- Claim C8 (confirmed): with the explanation and decision list fixed,
critic_score is non-decreasing in confidence; with confidence and the
decision list fixed, moving from an explanation shorter than
EXPLANATION_MIN_LENGTH to one at least that long never lowers the score
(the lost keyword bonus of at most 0.10 is covered by the gained length
bonus of 0.10); and the score always lies in the unit interval. -/
theorem C8_critic_monotone :
    (∀ (e : String) (ds : List TradeDecision) (c c' : ℚ), c ≤ c' →
        critic_score e ds c ≤ critic_score e ds c')
    ∧ (∀ (e1 e2 : String) (ds : List TradeDecision) (c : ℚ),
        e1.length < EXPLANATION_MIN_LENGTH → EXPLANATION_MIN_LENGTH ≤ e2.length →
        critic_score e1 ds c ≤ critic_score e2 ds c)
    ∧ (∀ (e : String) (ds : List TradeDecision) (c : ℚ),
        0 ≤ critic_score e ds c ∧ critic_score e ds c ≤ 1) := by
  refine ⟨?_, ?_, ?_⟩
  · intro e ds c c' hcc
    rw [critic_score_eq, critic_score_eq]
    apply clamp01_mono
    have := clamp01_mono hcc
    linarith
  · intro e1 e2 ds c h1 h2
    rw [critic_score_eq, critic_score_eq]
    apply clamp01_mono
    rw [if_neg (by omega), if_pos h2]
    split_ifs <;> linarith
  · intro e ds c
    rw [critic_score_eq]
    exact ⟨clamp01_nonneg _, clamp01_le_one _⟩

/-- A 200-character explanation used as a concrete witness input. -/
def long_explanation : String := String.mk (List.replicate 200 'x')

/-- Witness for C8 at concrete inputs. -/
theorem C8_critic_monotone_witness :
    ((3/10 : ℚ) ≤ 1/2 ∧ critic_score ("short") [] (3/10) ≤ critic_score ("short") [] (1/2))
    ∧ (("short" : String).length < EXPLANATION_MIN_LENGTH
        ∧ EXPLANATION_MIN_LENGTH ≤ long_explanation.length
        ∧ critic_score ("short") [] (1/2) ≤ critic_score long_explanation [] (1/2))
    ∧ (0 ≤ critic_score ("short") [] (1/2) ∧ critic_score ("short") [] (1/2) ≤ 1) := by
  have hlen1 : ("short" : String).length < EXPLANATION_MIN_LENGTH := by decide
  have hlen2 : EXPLANATION_MIN_LENGTH ≤ long_explanation.length := by decide
  exact ⟨⟨by norm_num, C8_critic_monotone.1 "short" [] (3/10) (1/2) (by norm_num)⟩,
         ⟨hlen1, hlen2, C8_critic_monotone.2.1 "short" long_explanation [] (1/2) hlen1 hlen2⟩,
         C8_critic_monotone.2.2 "short" [] (1/2)⟩

theorem sanitize_item_props :
    ∀ (it : RawItem) (d : TradeDecision), sanitize_item it = some d →
      d.ticker ∈ INVESTIBLES
      ∧ (d.action = "BUY" ∨ d.action = "SELL" ∨ d.action = "HOLD")
      ∧ 0 ≤ d.allocation_pct ∧ d.allocation_pct ≤ 80 := by
  intro it d h
  cases it with
  | notDict => simp [sanitize_item] at h
  | dict f =>
    simp only [sanitize_item] at h
    by_cases ht : (f.ticker.getD ("")).toUpper.trim ∈ INVESTIBLES
    · rw [if_pos ht] at h
      simp only [Option.some.injEq] at h
      subst h
      dsimp only
      refine ⟨ht, ?_, le_max_left _ _, max_le (by norm_num) (min_le_left _ _)⟩
      by_cases ha : (f.action.getD ("HOLD")).toUpper.trim = "BUY"
          ∨ (f.action.getD ("HOLD")).toUpper.trim = "SELL"
          ∨ (f.action.getD ("HOLD")).toUpper.trim = "HOLD"
      · rw [if_pos ha]
        exact ha
      · rw [if_neg ha]
        exact Or.inr (Or.inr rfl)
    · rw [if_neg ht] at h
      simp at h

theorem investibles_nodup : INVESTIBLES.Nodup := by decide

/-- Claim C3 (corrected): for a raw value that is a list, the sanitized
output draws every ticker from the investible set, keeps every action in
BUY/SELL/HOLD and every allocation_pct in the interval from 0 to 80, and
contains every investible at least once, appending a synthetic HOLD with
note default HOLD for every investible missing from the valid entries.
Every investible appears EXACTLY once only when the valid input entries
carry no duplicate tickers, and on a non-list raw value the output is
empty (see the counterexample): the claimed exactly-once property fails
in both situations. -/
theorem C3_sanitize_properties :
    ∀ (items : List RawItem),
      (∀ d ∈ sanitize_decisions (.list items),
          d.ticker ∈ INVESTIBLES
          ∧ (d.action = "BUY" ∨ d.action = "SELL" ∨ d.action = "HOLD")
          ∧ 0 ≤ d.allocation_pct ∧ d.allocation_pct ≤ 80)
      ∧ (∀ t ∈ INVESTIBLES,
          1 ≤ ((sanitize_decisions (.list items)).map TradeDecision.ticker).count t)
      ∧ (((items.filterMap sanitize_item).map TradeDecision.ticker).Nodup →
          ∀ t ∈ INVESTIBLES,
            ((sanitize_decisions (.list items)).map TradeDecision.ticker).count t = 1)
      ∧ (∀ t ∈ INVESTIBLES,
          t ∉ (items.filterMap sanitize_item).map TradeDecision.ticker →
            default_hold t ∈ sanitize_decisions (.list items)) := by
  intro items
  have hout : sanitize_decisions (.list items)
      = items.filterMap sanitize_item
        ++ (INVESTIBLES.filter
              (fun t => t ∉ (items.filterMap sanitize_item).map TradeDecision.ticker)).map
            default_hold := rfl
  have hmap : (sanitize_decisions (.list items)).map TradeDecision.ticker
      = (items.filterMap sanitize_item).map TradeDecision.ticker
        ++ INVESTIBLES.filter
            (fun t => t ∉ (items.filterMap sanitize_item).map TradeDecision.ticker) := by
    rw [hout, List.map_append, List.map_map]
    congr 1
    have : TradeDecision.ticker ∘ default_hold = fun t => t := by
      funext t
      rfl
    rw [this, List.map_id']
  refine ⟨?_, ?_, ?_, ?_⟩
  · intro d hd
    rw [hout] at hd
    rcases List.mem_append.mp hd with hd | hd
    · obtain ⟨it, _, hsome⟩ := List.mem_filterMap.mp hd
      exact sanitize_item_props it d hsome
    · obtain ⟨t, htf, rfl⟩ := List.mem_map.mp hd
      have htI : t ∈ INVESTIBLES := (List.mem_filter.mp htf).1
      exact ⟨htI, Or.inr (Or.inr rfl), le_rfl, by norm_num [default_hold]⟩
  · intro t ht
    rw [hmap, List.count_append]
    by_cases hp : t ∈ (items.filterMap sanitize_item).map TradeDecision.ticker
    · have h1 : 0 < ((items.filterMap sanitize_item).map TradeDecision.ticker).count t :=
        List.count_pos_iff.mpr hp
      omega
    · have hmem : t ∈ INVESTIBLES.filter
          (fun t => t ∉ (items.filterMap sanitize_item).map TradeDecision.ticker) :=
        List.mem_filter.mpr ⟨ht, by simpa using hp⟩
      have h1 : 0 < (INVESTIBLES.filter
          (fun t => t ∉ (items.filterMap sanitize_item).map TradeDecision.ticker)).count t :=
        List.count_pos_iff.mpr hmem
      omega
  · intro hnd t ht
    rw [hmap, List.count_append]
    by_cases hp : t ∈ (items.filterMap sanitize_item).map TradeDecision.ticker
    · have h1 : ((items.filterMap sanitize_item).map TradeDecision.ticker).count t = 1 :=
        List.count_eq_one_of_mem hnd hp
      have h2 : (INVESTIBLES.filter
          (fun t => t ∉ (items.filterMap sanitize_item).map TradeDecision.ticker)).count t = 0 := by
        apply List.count_eq_zero.mpr
        intro hmem
        have := (List.mem_filter.mp hmem).2
        simp only [decide_eq_true_eq] at this
        exact this hp
      omega
    · have h1 : ((items.filterMap sanitize_item).map TradeDecision.ticker).count t = 0 :=
        List.count_eq_zero.mpr hp
      have hmem : t ∈ INVESTIBLES.filter
          (fun t => t ∉ (items.filterMap sanitize_item).map TradeDecision.ticker) :=
        List.mem_filter.mpr ⟨ht, by simpa using hp⟩
      have h2 : (INVESTIBLES.filter
          (fun t => t ∉ (items.filterMap sanitize_item).map TradeDecision.ticker)).count t = 1 :=
        List.count_eq_one_of_mem (investibles_nodup.filter _) hmem
      omega
  · intro t ht hnp
    rw [hout]
    exact List.mem_append_right _
      (List.mem_map.mpr ⟨t, List.mem_filter.mpr ⟨ht, by simpa using hnp⟩, rfl⟩)

/-- Witness for C3 at the concrete input items = []. -/
theorem C3_sanitize_properties_witness :
    ("XLE" ∈ INVESTIBLES)
    ∧ 1 ≤ ((sanitize_decisions (.list [])).map TradeDecision.ticker).count ("XLE")
    ∧ ((sanitize_decisions (.list [])).map TradeDecision.ticker).count ("XLE") = 1
    ∧ default_hold ("XLE") ∈ sanitize_decisions (.list [])
    ∧ (default_hold ("XLE") ∈ sanitize_decisions (.list []) →
        (default_hold ("XLE")).ticker ∈ INVESTIBLES) := by
  have hX : "XLE" ∈ INVESTIBLES := by decide
  refine ⟨hX,
          (C3_sanitize_properties []).2.1 "XLE" hX,
          (C3_sanitize_properties []).2.2.1 (by simp) "XLE" hX,
          (C3_sanitize_properties []).2.2.2 "XLE" hX (by simp),
          fun hmem => ((C3_sanitize_properties []).1 _ hmem).1⟩

/-- Counterexample for C3: on a raw value that is not a list,
sanitize_decisions returns the empty list, so the investible XLE does not
appear exactly once in the output. -/
theorem C3_sanitize_cex :
    sanitize_decisions RawVal.notList = []
    ∧ ("XLE") ∈ INVESTIBLES
    ∧ ((sanitize_decisions RawVal.notList).map TradeDecision.ticker).count ("XLE") = 0 := by
  refine ⟨rfl, by decide, rfl⟩

theorem le_max_snapshot_id :
    ∀ (l : List Nat) (i : Nat), i ∈ l → (i : Int) ≤ max_snapshot_id l := by
  intro l
  induction l with
  | nil => intro i hi; simp at hi
  | cons j r ih =>
    intro i hi
    rcases List.mem_cons.mp hi with rfl | hi
    · exact le_max_left _ _
    · exact le_trans (ih i hi) (le_max_right _ _)

theorem max_snapshot_id_nonneg : ∀ l : List Nat, 0 ≤ max_snapshot_id l := by
  intro l
  induction l with
  | nil => exact le_rfl
  | cons j r ih => exact le_trans ih (le_max_right _ _)

theorem foldr_max_all_le :
    ∀ (l : List Nat) (c : Int), (∀ i ∈ l, (i : Int) ≤ c) →
      l.foldr (fun j m => max (Int.ofNat j) m) c = c := by
  intro l
  induction l with
  | nil => intro c _; rfl
  | cons j r ih =>
    intro c h
    rw [List.foldr_cons, ih c (fun i hi => h i (List.mem_cons_of_mem j hi))]
    exact max_eq_right (h j (List.mem_cons_self j r))

theorem max_snapshot_id_append_max (l : List Nat) (m : Nat)
    (h : ∀ i ∈ l, i ≤ m) : max_snapshot_id (l ++ [m]) = m := by
  unfold max_snapshot_id
  rw [List.foldr_append]
  have h1 : ([m] : List Nat).foldr (fun j mx => max (Int.ofNat j) mx) 0 = (m : Int) := by
    simp [Int.ofNat_eq_coe]
  rw [h1]
  exact foldr_max_all_le l (m : Int) (fun i hi => by exact_mod_cast h i hi)

/-- Claim C5 (corrected): the trim statement deletes rows with id strictly
below MAX(snapshot_id) - 1500, so after a Market step the snapshots table
can hold up to 1501 rows, not 1500 (see the counterexample with 1500
existing consecutive ids).  The amended bound is 1501, and the retained
rows are exactly the tail: precisely the ids at least MAX - 1500, an
upward-closed subset of the table. -/
theorem C5_snapshot_trim :
    ∀ (ids : List Nat) (newId : Nat), ids.Nodup → (∀ i ∈ ids, i < newId) →
      ((market_step_snapshots ids newId).length ≤ 1501)
      ∧ (∀ i : Nat, i ∈ market_step_snapshots ids newId ↔
          (i ∈ ids ++ [newId]
            ∧ max_snapshot_id (ids ++ [newId]) - 1500 ≤ (i : Int)))
      ∧ (∀ i j : Nat, i ∈ market_step_snapshots ids newId → j ∈ ids ++ [newId] →
            i ≤ j → j ∈ market_step_snapshots ids newId) := by
  intro ids newId hnd hlt
  have hchar : ∀ i : Nat, i ∈ market_step_snapshots ids newId ↔
      (i ∈ ids ++ [newId] ∧ max_snapshot_id (ids ++ [newId]) - 1500 ≤ (i : Int)) := by
    intro i
    unfold market_step_snapshots trim_snapshots
    rw [List.mem_filter]
    simp [not_lt]
  refine ⟨?_, hchar, ?_⟩
  · have hall_nodup : (ids ++ [newId]).Nodup := by
      rw [List.nodup_append]
      refine ⟨hnd, List.nodup_singleton _, ?_⟩
      intro a ha hb
      simp only [List.mem_singleton] at hb
      subst hb
      exact absurd (hlt a ha) (lt_irrefl _)
    have hres_nodup : (market_step_snapshots ids newId).Nodup := by
      unfold market_step_snapshots trim_snapshots
      exact hall_nodup.filter _
    have hm0 : 0 ≤ max_snapshot_id (ids ++ [newId]) := max_snapshot_id_nonneg _
    have hsub : market_step_snapshots ids newId
        ⊆ List.range' (max_snapshot_id (ids ++ [newId]) - 1500).toNat 1501 := by
      intro i hi
      rw [hchar] at hi
      obtain ⟨hiall, hige⟩ := hi
      have hile : (i : Int) ≤ max_snapshot_id (ids ++ [newId]) :=
        le_max_snapshot_id _ i hiall
      rw [List.mem_range'_1]
      omega
    have hlen := (hres_nodup.subperm hsub).length_le
    rwa [List.length_range'] at hlen
  · intro i j hi hj hij
    rw [hchar] at hi ⊢
    exact ⟨hj, le_trans hi.2 (by exact_mod_cast hij)⟩

/-- Witness for C5 at a concrete small table. -/
theorem C5_snapshot_trim_witness :
    (([1, 2] : List Nat).Nodup ∧ (∀ i ∈ ([1, 2] : List Nat), i < 3))
    ∧ (market_step_snapshots [1, 2] 3).length ≤ 1501
    ∧ (3 ∈ market_step_snapshots [1, 2] 3 ↔
        (3 ∈ ([1, 2] : List Nat) ++ [3]
          ∧ max_snapshot_id (([1, 2] : List Nat) ++ [3]) - 1500 ≤ (3 : Int))) := by
  have h1 : ([1, 2] : List Nat).Nodup := by decide
  have h2 : ∀ i ∈ ([1, 2] : List Nat), i < 3 := by decide
  exact ⟨⟨h1, h2⟩, (C5_snapshot_trim [1, 2] 3 h1 h2).1,
         (C5_snapshot_trim [1, 2] 3 h1 h2).2.1 3⟩

/-- Counterexample for C5: starting from the 1500 consecutive snapshot ids
1..1500, inserting id 1501 and trimming leaves 1501 rows, because only ids
strictly below MAX - 1500 = 1 are deleted; the claimed bound of 1500 rows
is violated. -/
theorem C5_snapshot_trim_cex :
    ¬ ((market_step_snapshots (List.range' 1 1500) 1501).length ≤ 1500) := by
  have hmax : max_snapshot_id (List.range' 1 1500 ++ [1501]) = 1501 :=
    max_snapshot_id_append_max _ _ (by
      intro i hi
      rw [List.mem_range'_1] at hi
      omega)
  have hfull : market_step_snapshots (List.range' 1 1500) 1501
      = List.range' 1 1500 ++ [1501] := by
    unfold market_step_snapshots trim_snapshots
    rw [hmax]
    apply List.filter_eq_self.mpr
    intro a ha
    rcases List.mem_append.mp ha with h | h
    · rw [List.mem_range'_1] at h
      simp only [decide_eq_true_eq, not_lt]
      omega
    · simp only [List.mem_singleton] at h
      subst h
      simp only [decide_eq_true_eq, not_lt]
      omega
  rw [hfull]
  simp [List.length_range']

theorem sell_step_mono (cfg : TradingConfig) (prices : List (String × ℚ))
    (now reason : String) (iid : Int) (st : ExecState) (d : TradeDecision)
    (hmin : 0 ≤ cfg.MIN_TRADE_NOTIONAL) :
    st.cash ≤ (sell_step cfg prices now reason iid st d).cash
    ∧ ((sell_step cfg prices now reason iid st d).executed = st.executed
       ∨ ∃ r : ExecRecord,
           (sell_step cfg prices now reason iid st d).executed = st.executed ++ [r]
           ∧ r.side = "SELL") := by
  simp only [sell_step]
  split_ifs with h1 h2 h3 h4 h5 h6 <;>
    try exact ⟨le_rfl, Or.inl rfl⟩
  all_goals
    refine ⟨?_, Or.inr ⟨_, rfl, rfl⟩⟩
  all_goals
    have hge := not_lt.mp h5
  all_goals
    dsimp only
  all_goals
    linarith [le_trans hmin hge]

theorem sell_pass_props (cfg : TradingConfig) (prices : List (String × ℚ))
    (now reason : String) (iid : Int)
    (hmin : 0 ≤ cfg.MIN_TRADE_NOTIONAL) :
    ∀ (ds : List TradeDecision) (st : ExecState),
      st.cash ≤ (ds.foldl (sell_step cfg prices now reason iid) st).cash
      ∧ ∀ r ∈ (ds.foldl (sell_step cfg prices now reason iid) st).executed,
          r ∈ st.executed ∨ r.side = "SELL" := by
  intro ds
  induction ds with
  | nil => exact fun st => ⟨le_rfl, fun r hr => Or.inl hr⟩
  | cons d ds ih =>
    intro st
    rw [List.foldl_cons]
    obtain ⟨hc, he⟩ := sell_step_mono cfg prices now reason iid st d hmin
    obtain ⟨ihc, ihe⟩ := ih (sell_step cfg prices now reason iid st d)
    constructor
    · exact le_trans hc ihc
    · intro r hr
      rcases ihe r hr with hmem | hside
      · rcases he with heq | ⟨q, heq, hq⟩
        · rw [heq] at hmem
          exact Or.inl hmem
        · rw [heq] at hmem
          rcases List.mem_append.mp hmem with hmem | hmem
          · exact Or.inl hmem
          · simp only [List.mem_singleton] at hmem
            subst hmem
            exact Or.inr hq
      · exact Or.inr hside

theorem buy_step_cases (cfg : TradingConfig) (prices : List (String × ℚ))
    (equity cb : ℚ) (now reason : String) (iid : Int)
    (hmin : 0 < cfg.MIN_TRADE_NOTIONAL) (st : ExecState) (d : TradeDecision) :
    ∀ st' : ExecState, buy_step cfg prices equity cb now reason iid st d = st' →
      (st'.cash = st.cash ∧ st'.executed = st.executed)
      ∨ (cb ≤ st'.cash
        ∧ ∃ r : ExecRecord, st'.executed = st.executed ++ [r]
            ∧ r.side = "BUY" ∧ r.notional ≤ max 0 (st.cash - cb)) := by
  intro st' h
  unfold buy_step at h
  dsimp only at h
  by_cases hc1 : st.stopped = true
  · rw [if_pos hc1] at h
    subst h
    exact Or.inl ⟨rfl, rfl⟩
  rw [if_neg hc1] at h
  by_cases hc2 : d.action ≠ "BUY"
  · rw [if_pos hc2] at h
    subst h
    exact Or.inl ⟨rfl, rfl⟩
  rw [if_neg hc2] at h
  by_cases hc3 : (assocFind prices d.ticker).isNone = true
  · rw [if_pos hc3] at h
    subst h
    exact Or.inl ⟨rfl, rfl⟩
  rw [if_neg hc3] at h
  by_cases hc4 : d.allocation_pct ≤ 0
  · rw [if_pos hc4] at h
    subst h
    exact Or.inl ⟨rfl, rfl⟩
  rw [if_neg hc4] at h
  by_cases hc5 : (assocFind prices d.ticker).getD 0 ≤ 0
  · rw [if_pos hc5] at h
    subst h
    exact Or.inl ⟨rfl, rfl⟩
  rw [if_neg hc5] at h
  by_cases hc6 : max 0 (st.cash - cb) < cfg.MIN_TRADE_NOTIONAL
  · rw [if_pos hc6] at h
    subst h
    exact Or.inl ⟨rfl, rfl⟩
  rw [if_neg hc6] at h
  by_cases hc7 : min (min (equity * (d.allocation_pct / 100)) st.buy_budget)
      (max 0 (st.cash - cb)) < cfg.MIN_TRADE_NOTIONAL
  · rw [if_pos hc7] at h
    subst h
    exact Or.inl ⟨rfl, rfl⟩
  rw [if_neg hc7] at h
  by_cases hc8 : equity * (cfg.MAX_SYMBOL_WEIGHT_PCT / 100)
      ≤ (assocFind st.mv_by_sym d.ticker).getD 0
  · rw [if_pos hc8] at h
    subst h
    exact Or.inl ⟨rfl, rfl⟩
  rw [if_neg hc8] at h
  by_cases hc9 : min (min (min (equity * (d.allocation_pct / 100)) st.buy_budget)
        (max 0 (st.cash - cb)))
      (max 0 (equity * (cfg.MAX_SYMBOL_WEIGHT_PCT / 100)
        - (assocFind st.mv_by_sym d.ticker).getD 0)) < cfg.MIN_TRADE_NOTIONAL
  · rw [if_pos hc9] at h
    subst h
    exact Or.inl ⟨rfl, rfl⟩
  rw [if_neg hc9] at h
  subst h
  have hsp : cfg.MIN_TRADE_NOTIONAL ≤ max 0 (st.cash - cb) := not_lt.mp hc6
  have h0sp : 0 < max 0 (st.cash - cb) := lt_of_lt_of_le hmin hsp
  have hcbpos : 0 < st.cash - cb := by
    by_contra hcon
    push_neg at hcon
    rw [max_eq_left hcon] at h0sp
    exact absurd h0sp (lt_irrefl 0)
  have hmaxeq : max 0 (st.cash - cb) = st.cash - cb := max_eq_right (le_of_lt hcbpos)
  have hn0 : min (min (equity * (d.allocation_pct / 100)) st.buy_budget)
      (max 0 (st.cash - cb)) ≤ max 0 (st.cash - cb) := min_le_right _ _
  have hnle : min (min (min (equity * (d.allocation_pct / 100)) st.buy_budget)
        (max 0 (st.cash - cb)))
      (max 0 (equity * (cfg.MAX_SYMBOL_WEIGHT_PCT / 100)
        - (assocFind st.mv_by_sym d.ticker).getD 0))
      ≤ max 0 (st.cash - cb) := le_trans (min_le_left _ _) hn0
  refine Or.inr ⟨?_, ⟨_, rfl, rfl, ?_⟩⟩
  · dsimp only
    linarith
  · dsimp only
    exact hnle

theorem buy_pass_inv (cfg : TradingConfig) (prices : List (String × ℚ))
    (equity cb : ℚ) (now reason : String) (iid : Int)
    (hmin : 0 < cfg.MIN_TRADE_NOTIONAL) (c1 : ℚ) (e1 : List ExecRecord) :
    ∀ (ds : List TradeDecision) (st : ExecState),
      ((st.cash = c1 ∧ st.executed = e1)
        ∨ (cb ≤ st.cash ∧ ∃ r ∈ st.executed, r.side = "BUY")) →
      (((ds.foldl (buy_step cfg prices equity cb now reason iid) st).cash = c1
          ∧ (ds.foldl (buy_step cfg prices equity cb now reason iid) st).executed = e1)
        ∨ (cb ≤ (ds.foldl (buy_step cfg prices equity cb now reason iid) st).cash
          ∧ ∃ r ∈ (ds.foldl (buy_step cfg prices equity cb now reason iid) st).executed,
              r.side = "BUY")) := by
  intro ds
  induction ds with
  | nil => exact fun st h => h
  | cons d ds ih =>
    intro st hinv
    rw [List.foldl_cons]
    apply ih
    rcases buy_step_cases cfg prices equity cb now reason iid hmin st d
        (buy_step cfg prices equity cb now reason iid st d) rfl with
      ⟨hc, he⟩ | ⟨hcb, r, he, hside, _⟩
    · rcases hinv with ⟨h1, h2⟩ | ⟨h1, q, hq, hqs⟩
      · exact Or.inl ⟨hc.trans h1, he.trans h2⟩
      · exact Or.inr ⟨hc ▸ h1, q, he ▸ hq, hqs⟩
    · exact Or.inr ⟨hcb, r, by rw [he]; exact List.mem_append_right _ (by simp), hside⟩

/-- Claim C2 (corrected): in execute_paper_trades the final cash is
nonnegative (given nonnegative starting cash and cash buffer), every
executed BUY notional is bounded by spendable = max(0, cash - cash_buffer)
taken at the time of that BUY, and whenever some BUY executes the final
cash is at least cash_buffer (exactly, with rational arithmetic); when no
BUY executes the final cash is at least the starting cash.  The claimed
exception clause is wrong: a cycle that starts with cash below cash_buffer
CAN execute BUYs, because the SELL pass can free enough cash first (see
the counterexample). -/
theorem C2_cash_guardrails (cfg : TradingConfig) (cash0 : ℚ)
    (table : List PositionRow) (prices : List (String × ℚ))
    (decisions : List TradeDecision) (now reason : String) (iid : Int)
    (hmin : 0 < cfg.MIN_TRADE_NOTIONAL)
    (hcash : 0 ≤ cash0)
    (hbuf : 0 ≤ cycle_cash_buffer cfg cash0 table prices) :
    (0 ≤ (execute_paper_trades cfg cash0 table prices decisions now reason iid).cash)
    ∧ ((∃ r ∈ (execute_paper_trades cfg cash0 table prices decisions now reason iid).executed,
          r.side = "BUY") →
        cycle_cash_buffer cfg cash0 table prices
          ≤ (execute_paper_trades cfg cash0 table prices decisions now reason iid).cash)
    ∧ ((∀ r ∈ (execute_paper_trades cfg cash0 table prices decisions now reason iid).executed,
          r.side ≠ "BUY") →
        cash0 ≤ (execute_paper_trades cfg cash0 table prices decisions now reason iid).cash)
    ∧ (∀ (st : ExecState) (d : TradeDecision) (r : ExecRecord),
        (buy_step cfg prices (portfolio_equity cash0 table prices)
            (cycle_cash_buffer cfg cash0 table prices) now reason iid st d).executed
          = st.executed ++ [r] →
        r.side = "BUY"
        ∧ r.notional ≤ max 0 (st.cash - cycle_cash_buffer cfg cash0 table prices)) := by
  have hept : execute_paper_trades cfg cash0 table prices decisions now reason iid
      = decisions.foldl
          (buy_step cfg prices (portfolio_equity cash0 table prices)
            (cycle_cash_buffer cfg cash0 table prices) now reason iid)
          (decisions.foldl (sell_step cfg prices now reason iid)
            ⟨cash0, cycle_buy_budget cfg cash0 table prices,
             table.map (fun r => (r.symbol, r.qty)),
             table.map (fun r => (r.symbol, r.qty * mark_price prices r)),
             table, [], [], [], false⟩) := rfl
  obtain ⟨hsc, hse⟩ := sell_pass_props cfg prices now reason iid (le_of_lt hmin) decisions
      ⟨cash0, cycle_buy_budget cfg cash0 table prices,
       table.map (fun r => (r.symbol, r.qty)),
       table.map (fun r => (r.symbol, r.qty * mark_price prices r)),
       table, [], [], [], false⟩
  have hsell_sides : ∀ r ∈ (decisions.foldl (sell_step cfg prices now reason iid)
      ⟨cash0, cycle_buy_budget cfg cash0 table prices,
       table.map (fun r => (r.symbol, r.qty)),
       table.map (fun r => (r.symbol, r.qty * mark_price prices r)),
       table, [], [], [], false⟩).executed, r.side = "SELL" := by
    intro r hr
    rcases hse r hr with hmem | hside
    · simp at hmem
    · exact hside
  have hinv := buy_pass_inv cfg prices (portfolio_equity cash0 table prices)
      (cycle_cash_buffer cfg cash0 table prices) now reason iid hmin
      (decisions.foldl (sell_step cfg prices now reason iid)
        ⟨cash0, cycle_buy_budget cfg cash0 table prices,
         table.map (fun r => (r.symbol, r.qty)),
         table.map (fun r => (r.symbol, r.qty * mark_price prices r)),
         table, [], [], [], false⟩).cash
      (decisions.foldl (sell_step cfg prices now reason iid)
        ⟨cash0, cycle_buy_budget cfg cash0 table prices,
         table.map (fun r => (r.symbol, r.qty)),
         table.map (fun r => (r.symbol, r.qty * mark_price prices r)),
         table, [], [], [], false⟩).executed
      decisions _ (Or.inl ⟨rfl, rfl⟩)
  rw [← hept] at hinv
  refine ⟨?_, ?_, ?_, ?_⟩
  · rcases hinv with ⟨hceq, _⟩ | ⟨hcb, _⟩
    · rw [hceq]
      exact le_trans hcash hsc
    · exact le_trans hbuf hcb
  · rintro ⟨r, hr, hside⟩
    rcases hinv with ⟨_, hee⟩ | ⟨hcb, _⟩
    · rw [hee] at hr
      have := hsell_sides r hr
      rw [hside] at this
      exact absurd this (by decide)
    · exact hcb
  · intro hnone
    rcases hinv with ⟨hceq, _⟩ | ⟨_, q, hq, hqs⟩
    · rw [hceq]
      exact hsc
    · exact absurd hqs (hnone q hq)
  · intro st d r h
    rcases buy_step_cases cfg prices (portfolio_equity cash0 table prices)
        (cycle_cash_buffer cfg cash0 table prices) now reason iid hmin st d
        (buy_step cfg prices (portfolio_equity cash0 table prices)
          (cycle_cash_buffer cfg cash0 table prices) now reason iid st d) rfl with
      ⟨_, he⟩ | ⟨_, q, he, hside, hn⟩
    · rw [he] at h
      exact absurd h (by simp)
    · rw [he] at h
      have : q = r := by
        have := List.append_cancel_left h
        simpa using this
      subst this
      exact ⟨hside, hn⟩

/-- Witness for C2 at a concrete input. -/
theorem C2_cash_guardrails_witness :
    ((0 : ℚ) < defaultTradingConfig.MIN_TRADE_NOTIONAL)
    ∧ ((0 : ℚ) ≤ 1000)
    ∧ (0 ≤ cycle_cash_buffer defaultTradingConfig 1000 [] [("AAPL", 100)])
    ∧ 0 ≤ (execute_paper_trades defaultTradingConfig 1000 [] [("AAPL", 100)]
        [⟨"AAPL", "BUY", 10, ""⟩] "t1" "r" 1).cash := by
  have h1 : (0 : ℚ) < defaultTradingConfig.MIN_TRADE_NOTIONAL := by
    norm_num [defaultTradingConfig]
  have h2 : (0 : ℚ) ≤ 1000 := by norm_num
  have h3 : 0 ≤ cycle_cash_buffer defaultTradingConfig 1000 [] [("AAPL", 100)] := by
    norm_num [cycle_cash_buffer, portfolio_equity, defaultTradingConfig]
  exact ⟨h1, h2, h3,
    (C2_cash_guardrails defaultTradingConfig 1000 [] [("AAPL", 100)]
      [⟨"AAPL", "BUY", 10, ""⟩] "t1" "r" 1 h1 h2 h3).1⟩

/-- Position table for the C2 counterexample: one AAPL position. -/
def cexTable : List PositionRow := [⟨"AAPL", 100, 50, 90, "t0", some ("t0")⟩]

/-- Prices for the C2 counterexample. -/
def cexPrices : List (String × ℚ) := [("AAPL", 100), ("MSFT", 100)]

/-- Decisions for the C2 counterexample: a SELL that frees cash followed
by a BUY. -/
def cexDecisions : List TradeDecision :=
  [⟨"AAPL", "SELL", 35, ""⟩, ⟨"MSFT", "BUY", 10, ""⟩]

set_option maxHeartbeats 3200000 in
/-- Counterexample for C2: the cycle starts with cash 0, strictly below
the cash buffer of 1200 (equity 10000 times 12 percent), yet a BUY is
executed, because the SELL pass frees 3500 of cash first.  The claimed
clause that a cycle starting below the buffer executes no BUY is false. -/
theorem C2_buy_after_sell_cex :
    (0 : ℚ) < cycle_cash_buffer defaultTradingConfig 0 cexTable cexPrices
    ∧ ((execute_paper_trades defaultTradingConfig 0 cexTable cexPrices cexDecisions
          "t1" "r" 1).executed.map ExecRecord.side) = ["SELL", "BUY"] := by
  constructor
  · norm_num [cycle_cash_buffer, portfolio_equity, mark_price, cexTable, cexPrices,
      defaultTradingConfig, assocFind]
  · have hne1 : ("BUY" : String) ≠ "SELL" := by decide
    have hne2 : ("SELL" : String) ≠ "BUY" := by decide
    have hne3 : ("AAPL" : String) ≠ "MSFT" := by decide
    have hne4 : ("MSFT" : String) ≠ "AAPL" := by decide
    norm_num [execute_paper_trades, sell_step, buy_step, cexTable, cexPrices,
      cexDecisions, assocFind, assocSet, portfolio_equity, mark_price,
      cycle_buy_budget, cycle_cash_buffer, defaultTradingConfig, findPosition,
      replacePosition, updatePositionSell, deletePosition, hne1, hne2, hne3, hne4]

/-- Claim C10 (confirmed): in execute_paper_trades, a decision whose
ticker is absent from the prices map, a BUY whose resolved price or
allocation_pct is nonpositive, and a SELL with no held quantity or
nonpositive allocation_pct are all skipped silently: the pass body
returns the state unchanged, so there is no trade row, no position or
cash change, and no entry in the executed or skipped lists.  In
contrast, a BUY that reaches the notional checks and fails the minimum
notional, or hits the symbol cap, changes exactly the skipped list. -/
theorem C10_silent_skips :
    (∀ (cfg : TradingConfig) (prices : List (String × ℚ)) (equity cb : ℚ)
        (now reason : String) (iid : Int) (st : ExecState) (d : TradeDecision),
        assocFind prices d.ticker = none →
        sell_step cfg prices now reason iid st d = st
        ∧ buy_step cfg prices equity cb now reason iid st d = st)
    ∧ (∀ (cfg : TradingConfig) (prices : List (String × ℚ)) (equity cb : ℚ)
        (now reason : String) (iid : Int) (st : ExecState) (d : TradeDecision),
        d.action = "BUY" →
        ((assocFind prices d.ticker).getD 0 ≤ 0 ∨ d.allocation_pct ≤ 0) →
        sell_step cfg prices now reason iid st d = st
        ∧ buy_step cfg prices equity cb now reason iid st d = st)
    ∧ (∀ (cfg : TradingConfig) (prices : List (String × ℚ)) (equity cb : ℚ)
        (now reason : String) (iid : Int) (st : ExecState) (d : TradeDecision),
        d.action = "SELL" →
        ((assocFind st.qty_by_sym d.ticker).getD 0 ≤ 0 ∨ d.allocation_pct ≤ 0) →
        sell_step cfg prices now reason iid st d = st
        ∧ buy_step cfg prices equity cb now reason iid st d = st)
    ∧ (∀ (cfg : TradingConfig) (prices : List (String × ℚ)) (equity cb : ℚ)
        (now reason : String) (iid : Int) (st : ExecState) (d : TradeDecision)
        (pv : ℚ),
        st.stopped = false → d.action = "BUY" →
        assocFind prices d.ticker = some pv →
        0 < d.allocation_pct → 0 < pv →
        cfg.MIN_TRADE_NOTIONAL ≤ max 0 (st.cash - cb) →
        min (min (equity * (d.allocation_pct / 100)) st.buy_budget)
            (max 0 (st.cash - cb)) < cfg.MIN_TRADE_NOTIONAL →
        buy_step cfg prices equity cb now reason iid st d
          = { st with skipped :=
                st.skipped ++ [("BUY ") ++ d.ticker ++ (" notional too small")] })
    ∧ (∀ (cfg : TradingConfig) (prices : List (String × ℚ)) (equity cb : ℚ)
        (now reason : String) (iid : Int) (st : ExecState) (d : TradeDecision)
        (pv : ℚ),
        st.stopped = false → d.action = "BUY" →
        assocFind prices d.ticker = some pv →
        0 < d.allocation_pct → 0 < pv →
        cfg.MIN_TRADE_NOTIONAL ≤ max 0 (st.cash - cb) →
        ¬ (min (min (equity * (d.allocation_pct / 100)) st.buy_budget)
            (max 0 (st.cash - cb)) < cfg.MIN_TRADE_NOTIONAL) →
        equity * (cfg.MAX_SYMBOL_WEIGHT_PCT / 100)
            ≤ (assocFind st.mv_by_sym d.ticker).getD 0 →
        buy_step cfg prices equity cb now reason iid st d
          = { st with skipped :=
                st.skipped ++ [("BUY ") ++ d.ticker ++ (" cap reached")] }) := by
  refine ⟨?_, ?_, ?_, ?_, ?_⟩
  · intro cfg prices equity cb now reason iid st d h
    constructor
    · simp [sell_step, h]
    · simp [buy_step, h]
  · intro cfg prices equity cb now reason iid st d ha h
    have hbs : ("BUY" : String) ≠ "SELL" := by decide
    constructor
    · simp [sell_step, ha, hbs]
    · rcases h with hp | hal
      · rcases hopt : assocFind prices d.ticker with _ | v
        · simp [buy_step, hopt]
        · rw [hopt] at hp
          simp only [Option.getD_some] at hp
          by_cases hal2 : d.allocation_pct ≤ 0
          · simp [buy_step, hopt, hal2]
          · simp [buy_step, hopt, hal2, hp]
      · simp [buy_step, hal]
  · intro cfg prices equity cb now reason iid st d ha h
    have hsb : ("SELL" : String) ≠ "BUY" := by decide
    constructor
    · rcases hopt : assocFind prices d.ticker with _ | v
      · simp [sell_step, ha, hopt]
      · rcases h with hv | hal
        · simp [sell_step, ha, hopt, hv]
        · by_cases hhv : (assocFind st.qty_by_sym d.ticker).getD 0 ≤ 0
          · simp [sell_step, ha, hopt, hhv]
          · have hpct : min d.allocation_pct cfg.MAX_SELL_HOLDING_PCT_PER_CYCLE ≤ 0 :=
              le_trans (min_le_left _ _) hal
            simp [sell_step, ha, hopt, hhv, hpct]
    · simp [buy_step, ha, hsb]
  · intro cfg prices equity cb now reason iid st d pv hst ha hopt hal hp h6 h7
    have hal2 : ¬ d.allocation_pct ≤ 0 := not_le.mpr hal
    have hp2 : ¬ pv ≤ 0 := not_le.mpr hp
    have h62 : ¬ max 0 (st.cash - cb) < cfg.MIN_TRADE_NOTIONAL := not_lt.mpr h6
    simp [buy_step, hst, ha, hopt, hal2, hp2, h62, h7]
  · intro cfg prices equity cb now reason iid st d pv hst ha hopt hal hp h6 h7 h8
    have hal2 : ¬ d.allocation_pct ≤ 0 := not_le.mpr hal
    have hp2 : ¬ pv ≤ 0 := not_le.mpr hp
    have h62 : ¬ max 0 (st.cash - cb) < cfg.MIN_TRADE_NOTIONAL := not_lt.mpr h6
    simp [buy_step, hst, ha, hopt, hal2, hp2, h62, h7, h8]

/-- Concrete executor state for the C10 witness. -/
def stW4 : ExecState := ⟨1000, 50, [], [], [], [], [], [], false⟩

/-- Concrete executor state for the C10 cap-reached witness: AAPL already
holds 200 of market value. -/
def stW5 : ExecState := ⟨2000, 180, [], [("AAPL", 200)], [], [], [], [], false⟩

/-- Witness for C10 at concrete inputs. -/
theorem C10_silent_skips_witness :
    (assocFind [] ("XLE") = none
      ∧ sell_step defaultTradingConfig [] ("t") ("r") 1 stW4 ⟨"XLE", "SELL", 5, ""⟩ = stW4
      ∧ buy_step defaultTradingConfig [] 100 10 ("t") ("r") 1 stW4 ⟨"XLE", "SELL", 5, ""⟩ = stW4)
    ∧ (sell_step defaultTradingConfig [("AAPL", 100)] ("t") ("r") 1 stW4
          ⟨"AAPL", "BUY", 0, ""⟩ = stW4
      ∧ buy_step defaultTradingConfig [("AAPL", 100)] 100 10 ("t") ("r") 1 stW4
          ⟨"AAPL", "BUY", 0, ""⟩ = stW4)
    ∧ (sell_step defaultTradingConfig [("AAPL", 100)] ("t") ("r") 1 stW4
          ⟨"AAPL", "SELL", 5, ""⟩ = stW4
      ∧ buy_step defaultTradingConfig [("AAPL", 100)] 100 10 ("t") ("r") 1 stW4
          ⟨"AAPL", "SELL", 5, ""⟩ = stW4)
    ∧ (buy_step defaultTradingConfig [("AAPL", 100)] 100 0 ("t") ("r") 1 stW4
          ⟨"AAPL", "BUY", 10, ""⟩
        = { stW4 with skipped :=
              stW4.skipped ++ [("BUY ") ++ "AAPL" ++ (" notional too small")] })
    ∧ (buy_step defaultTradingConfig [("AAPL", 100)] 1000 0 ("t") ("r") 1 stW5
          ⟨"AAPL", "BUY", 10, ""⟩
        = { stW5 with skipped :=
              stW5.skipped ++ [("BUY ") ++ "AAPL" ++ (" cap reached")] }) := by
  have hopt : assocFind [("AAPL", (100 : ℚ))] ("AAPL") = some 100 := by
    simp [assocFind]
  refine ⟨⟨rfl, ?_⟩, ?_, ?_, ?_, ?_⟩
  · exact (C10_silent_skips.1 defaultTradingConfig [] 100 10 ("t") ("r") 1 stW4
      ⟨"XLE", "SELL", 5, ""⟩ rfl)
  · exact (C10_silent_skips.2.1 defaultTradingConfig [("AAPL", 100)] 100 10 ("t") ("r") 1
      stW4 ⟨"AAPL", "BUY", 0, ""⟩ rfl (Or.inr (by norm_num)))
  · exact (C10_silent_skips.2.2.1 defaultTradingConfig [("AAPL", 100)] 100 10 ("t") ("r") 1
      stW4 ⟨"AAPL", "SELL", 5, ""⟩ rfl (Or.inl (by simp [stW4, assocFind])))
  · exact (C10_silent_skips.2.2.2.1 defaultTradingConfig [("AAPL", 100)] 100 0 ("t") ("r") 1
      stW4 ⟨"AAPL", "BUY", 10, ""⟩ 100 rfl rfl hopt (by norm_num) (by norm_num)
      (by norm_num [stW4, defaultTradingConfig])
      (by norm_num [stW4, defaultTradingConfig]))
  · exact (C10_silent_skips.2.2.2.2 defaultTradingConfig [("AAPL", 100)] 1000 0 ("t") ("r") 1
      stW5 ⟨"AAPL", "BUY", 10, ""⟩ 100 rfl rfl hopt (by norm_num) (by norm_num)
      (by norm_num [stW5, defaultTradingConfig])
      (by norm_num [stW5, defaultTradingConfig])
      (by norm_num [stW5, defaultTradingConfig, assocFind]))

end KGInvest
